import Mathlib

set_option maxHeartbeats 1000000
set_option maxRecDepth 4000

/-!
Verification of the GiterLab go-coap message codec and server loop.

The definitions below are a shallow embedding of src/message.go and
src/server.go.  Bytes are modelled as Nat values below 256, byte strings as
List Nat, Go uint8/uint16/uint32 arithmetic as Nat with explicit mod where the
Go code truncates.  Go functions that can hit a runtime fault (array index out
of range) get an explicit crash result constructor.
-/

namespace GoCoap

/-- message.go valueFormat: option value format per RFC 7252 section 3.2. -/
inductive valueFormat
  | valueUnknown
  | valueEmpty
  | valueOpaque
  | valueUint
  | valueString
deriving DecidableEq

/-- message.go optionDef: registry entry for one option ID.  The Go field
named valueFormat is called vFormat here because the field and its type
cannot share a name in Lean. -/
structure optionDef where
  vFormat : valueFormat
  minLen : Nat
  maxLen : Nat
deriving DecidableEq

/-- message.go optionDefs: the 65536-entry registry array as a function on
indices.  Entries not listed in the Go literal are the zero optionDef, whose
format is valueUnknown.  Indexing the Go array out of bounds is modelled at
the call site (parseOptionValue). -/
def optionDefs (id : Nat) : optionDef :=
  if id = 1 then ⟨.valueOpaque, 0, 8⟩          -- IfMatch
  else if id = 3 then ⟨.valueString, 1, 255⟩   -- URIHost
  else if id = 4 then ⟨.valueOpaque, 1, 8⟩     -- ETag
  else if id = 5 then ⟨.valueEmpty, 0, 0⟩      -- IfNoneMatch
  else if id = 6 then ⟨.valueUint, 0, 3⟩       -- Observe
  else if id = 7 then ⟨.valueUint, 0, 2⟩       -- URIPort
  else if id = 8 then ⟨.valueString, 0, 255⟩   -- LocationPath
  else if id = 11 then ⟨.valueString, 0, 255⟩  -- URIPath
  else if id = 12 then ⟨.valueUint, 0, 2⟩      -- ContentFormat
  else if id = 14 then ⟨.valueUint, 0, 4⟩      -- MaxAge
  else if id = 15 then ⟨.valueString, 0, 255⟩  -- URIQuery
  else if id = 17 then ⟨.valueUint, 0, 2⟩      -- Accept
  else if id = 20 then ⟨.valueString, 0, 255⟩  -- LocationQuery
  else if id = 35 then ⟨.valueString, 1, 1034⟩ -- ProxyURI
  else if id = 39 then ⟨.valueString, 1, 255⟩  -- ProxyScheme
  else if id = 60 then ⟨.valueUint, 0, 4⟩      -- Size1
  else if id = 65000 then ⟨.valueString, 0, 255⟩ -- GiterLabID
  else if id = 65001 then ⟨.valueString, 0, 255⟩ -- GiterLabKey
  else if id = 65002 then ⟨.valueString, 0, 255⟩ -- AccessID
  else if id = 65003 then ⟨.valueString, 0, 255⟩ -- AccessKey
  else if id = 65004 then ⟨.valueUint, 0, 4⟩   -- CheckCRC32
  else if id = 65005 then ⟨.valueUint, 0, 4⟩   -- EncoderType
  else if id = 65006 then ⟨.valueUint, 0, 4⟩   -- EncoderID
  else if id = 65007 then ⟨.valueUint, 0, 4⟩   -- Flags
  else if id = 65100 then ⟨.valueUint, 0, 4⟩   -- PackageNumber
  else ⟨.valueUnknown, 0, 0⟩

/-- message.go encodeInt: minimal big-endian encoding of a uint32 value. -/
def encodeInt (v : Nat) : List Nat :=
  if v = 0 then []
  else if v < 256 then [v]
  else if v < 65536 then [v / 256, v % 256]
  else if v < 16777216 then [v / 65536, v / 256 % 256, v % 256]
  else [v / 16777216 % 256, v / 65536 % 256, v / 256 % 256, v % 256]

/-- message.go decodeInt: copy b into the tail of a 4-byte zero buffer and
read it as a big-endian uint32 (callers pass at most 4 bytes). -/
def decodeInt (b : List Nat) : Nat :=
  (List.replicate (4 - b.length) 0 ++ b).foldl (fun acc x => acc * 256 + x) 0

/-- The dynamically typed option value (Go interface held in option.Value).
vMedia is the MediaType case (a uint16 in Go), vUint32 the uint32 case,
vInt the int case, vString a Go string as its bytes, vBytes a byte slice. -/
inductive OVal
  | vString (s : List Nat)
  | vBytes (b : List Nat)
  | vMedia (v : Nat)
  | vUint32 (v : Nat)
  | vInt (i : Int)
deriving DecidableEq

/-- message.go option: an (ID, Value) pair. -/
structure option where
  ID : Nat
  Value : OVal
deriving DecidableEq

/-- message.go option.toBytes.  Strings and byte slices pass through; numeric
values are converted to uint32 and encoded with encodeInt.  MediaType is a
uint16 in Go, hence the mod 65536; the int case converts mod 2 to the 32. -/
def toBytes (o : option) : List Nat :=
  match o.Value with
  | .vString s => s
  | .vBytes b => b
  | .vMedia v => encodeInt (v % 65536)
  | .vUint32 v => encodeInt (v % 4294967296)
  | .vInt i => encodeInt (i % 4294967296).toNat

/-- message.go Message.  The Go field Type is called Typ here (Type is a Lean
keyword).  CType and CCode are uint8, MessageID a uint16. -/
structure Message where
  Typ : Nat
  Code : Nat
  MessageID : Nat
  Token : List Nat
  Payload : List Nat
  opts : List option
deriving DecidableEq

/-- message.go options.Minus: all options whose ID differs from oid. -/
def optionsMinus (o : List option) (oid : Nat) : List option :=
  o.filter (fun opt => opt.ID ≠ oid)

/-- message.go options.Less, as used through sort.Stable: compare by ID, and
for equal IDs keep the original order.  sort.Stable with that comparison is
exactly a stable sort by ID, which insertionSort with this relation models. -/
def optLE (a b : option) : Prop := a.ID ≤ b.ID

instance : DecidableRel optLE := fun a b => inferInstanceAs (Decidable (a.ID ≤ b.ID))

instance : IsTotal option optLE := ⟨fun a b => Nat.le_total a.ID b.ID⟩

instance : IsTrans option optLE := ⟨fun _ _ _ h h2 => Nat.le_trans h h2⟩

/-! ### Encoder (message.go MarshalBinary and its closures) -/

/-- message.go extoptByteCode. -/
def extoptByteCode : Nat := 13

/-- message.go extoptByteAddend. -/
def extoptByteAddend : Nat := 13

/-- message.go extoptWordCode. -/
def extoptWordCode : Nat := 14

/-- message.go extoptWordAddend. -/
def extoptWordAddend : Nat := 269

/-- message.go extoptError. -/
def extoptError : Nat := 15

/-- The extendOpt closure in MarshalBinary: split a delta or length into a
nibble code and an extension value. -/
def extendOpt (opt : Nat) : Nat × Nat :=
  if opt ≥ extoptByteAddend then
    if opt ≥ extoptWordAddend then (extoptWordCode, opt - extoptWordAddend)
    else (extoptByteCode, opt - extoptByteAddend)
  else (opt, 0)

/-- The writeExt closure in writeOptHeader: bytes appended for one extension
field.  The Go conversions byte(ext) and uint16(ext) truncate, hence the
explicit mods here. -/
def writeExt (opt ext : Nat) : List Nat :=
  if opt = extoptByteCode then [ext % 256]
  else if opt = extoptWordCode then [ext % 65536 / 256, ext % 256]
  else []

/-- The writeOptHeader closure in MarshalBinary.  The nibbles produced by
extendOpt are at most 14, so the Go header byte (d shifted left by 4) or l
equals d * 16 + l. -/
def writeOptHeader (delta length : Nat) : List Nat :=
  let dp := extendOpt delta
  let lp := extendOpt length
  (dp.1 * 16 + lp.1) :: (writeExt dp.1 dp.2 ++ writeExt lp.1 lp.2)

/-- The option-emitting loop of MarshalBinary, run after the stable sort;
prev is the ID of the previously emitted option, initially 0. -/
def marshalOpts : List option → Nat → List Nat
  | [], _ => []
  | o :: rest, prev =>
      let b := toBytes o
      writeOptHeader (o.ID - prev) b.length ++ b ++ marshalOpts rest o.ID

/-- Byte 0 of the fixed header, from MarshalBinary:
(1 shifted left by 6) or (uint8(Type) shifted left by 4) or (0xf and tokenLen).
The uint8 shift truncates mod 256 and the 0xf mask is mod 16. -/
def headerByte0 (t tkl : Nat) : Nat := 64 ||| (t * 16 % 256) ||| (tkl % 16)

/-- message.go Message.MarshalBinary.  The Go method also mutates its
receiver: sort.Stable reorders m.opts in place before emission.  Its error
result is the constant nil (the single return site is return buf.Bytes(),
nil), so the embedding returns the produced bytes together with the updated
receiver and has no error component. -/
def MarshalBinary (m : Message) : List Nat × Message :=
  let sorted := List.insertionSort optLE m.opts
  ([headerByte0 m.Typ m.Token.length, m.Code % 256,
      m.MessageID % 65536 / 256, m.MessageID % 256]
    ++ m.Token
    ++ marshalOpts sorted 0
    ++ (if m.Payload.length > 0 then 255 :: m.Payload else []),
   { m with opts := sorted })

/-! ### Decoder (message.go UnmarshalBinary, ParseMessage, parseOptionValue) -/

/-- The decode errors of message.go: the three errors.New literals in
UnmarshalBinary plus ErrInvalidTokenLen; unexpectedExtMarker is the
"unexpected extended option marker" error. -/
inductive DecodeErr
  | shortPacket
  | invalidVersion
  | invalidTokenLen
  | truncated
  | unexpectedExtMarker
deriving DecidableEq

/-- Result of parseOptionValue.  crash models the Go runtime fault when
optionDefs, an array of length 65536, is indexed with an option ID of 65536
or more; val none is the nil result (option silently dropped). -/
inductive PValue
  | crash
  | val (v : Option OVal)
deriving DecidableEq

/-- message.go parseOptionValue. -/
def parseOptionValue (optionID : Nat) (valueBuf : List Nat) : PValue :=
  if 65536 ≤ optionID then .crash
  else
    let d := optionDefs optionID
    if d.vFormat = valueFormat.valueUnknown then .val none
    else if valueBuf.length < d.minLen ∨ valueBuf.length > d.maxLen then .val none
    else
      match d.vFormat with
      | valueFormat.valueUint =>
          let intValue := decodeInt valueBuf
          if optionID = 12 ∨ optionID = 17 then .val (some (.vMedia (intValue % 65536)))
          else .val (some (.vUint32 intValue))
      | valueFormat.valueString => .val (some (.vString valueBuf))
      | valueFormat.valueOpaque => .val (some (.vBytes valueBuf))
      | valueFormat.valueEmpty => .val (some (.vBytes valueBuf))
      | valueFormat.valueUnknown => .val none

/-- The parseExtOpt closure in UnmarshalBinary: resolve one nibble to its
value, reading the extension bytes from the front of b.  The bytes it
consumes on success are extLen of the nibble. -/
def parseExtOpt (opt : Nat) (b : List Nat) : Except DecodeErr Nat :=
  if opt = extoptByteCode then
    match b with
    | [] => .error .truncated
    | x :: _ => .ok (x + extoptByteAddend)
  else if opt = extoptWordCode then
    match b with
    | x :: y :: _ => .ok (x * 256 + y + extoptWordAddend)
    | _ => .error .truncated
  else .ok opt

/-- Bytes consumed from the buffer by parseExtOpt for a given nibble. -/
def extLen (opt : Nat) : Nat :=
  if opt = extoptByteCode then 1 else if opt = extoptWordCode then 2 else 0

/-- Result of the option loop of UnmarshalBinary: a crash, a decode error,
or the accumulated options together with the payload bytes. -/
inductive OptsRes
  | crash
  | fail (e : DecodeErr)
  | done (opts : List option) (payload : List Nat)
deriving DecidableEq

/-- The option loop of message.go UnmarshalBinary.  acc is m.opts (appended
to, exactly as the Go code appends); prev is the previous option ID. -/
def parseOpts (b : List Nat) (prev : Nat) (acc : List option) : OptsRes :=
  match b with
  | [] => .done acc []
  | b0 :: rest =>
    if b0 = 255 then .done acc rest
    else
      let dn := b0 / 16
      let ln := b0 % 16
      if dn = extoptError ∨ ln = extoptError then .fail .unexpectedExtMarker
      else
        match parseExtOpt dn rest with
        | .error e => .fail e
        | .ok delta =>
          match parseExtOpt ln (rest.drop (extLen dn)) with
          | .error e => .fail e
          | .ok length =>
            let r2 := (rest.drop (extLen dn)).drop (extLen ln)
            if r2.length < length then .fail .truncated
            else
              let oid := prev + delta
              match parseOptionValue oid (r2.take length) with
              | .crash => .crash
              | .val none => parseOpts (r2.drop length) oid acc
              | .val (some v) => parseOpts (r2.drop length) oid (acc ++ [⟨oid, v⟩])
termination_by b.length
decreasing_by
  all_goals simp only [r2, List.length_drop, List.length_cons]; omega

/-- Overall decode result: crash (runtime fault), a decode error, or the
parsed message. -/
inductive DecRes
  | crash
  | err (e : DecodeErr)
  | ok (m : Message)
deriving DecidableEq

/-- message.go Message.UnmarshalBinary acting on receiver m.  On success the
Go code has stored the header fields into m, replaced m.Token only when the
token length is positive, appended the parsed options to m.opts and set
m.Payload; error results discard the partially mutated receiver, which no
caller of a failed UnmarshalBinary inspects. -/
def UnmarshalBinary (m : Message) (data : List Nat) : DecRes :=
  match data with
  | d0 :: d1 :: d2 :: d3 :: rest =>
    if d0 / 64 ≠ 1 then .err .invalidVersion
    else
      let tokenLen := d0 % 16
      if tokenLen > 8 then .err .invalidTokenLen
      else if (d0 :: d1 :: d2 :: d3 :: rest).length < 4 + tokenLen then .err .truncated
      else
        match parseOpts (rest.drop tokenLen) 0 m.opts with
        | .crash => .crash
        | .fail e => .err e
        | .done opts payload =>
          .ok { Typ := d0 / 16 % 4, Code := d1, MessageID := d2 * 256 + d3,
                Token := if tokenLen > 0 then rest.take tokenLen else m.Token,
                Payload := payload, opts := opts }
  | _ => .err .shortPacket

/-- message.go ParseMessage: decode into a zero Message. -/
def ParseMessage (data : List Nat) : DecRes :=
  UnmarshalBinary { Typ := 0, Code := 0, MessageID := 0, Token := [], Payload := [], opts := [] } data

/-! ### Path helpers (message.go SetPathString, SetPath, SetOption) -/

/-- The loop for s[0] equal to the slash byte at the top of SetPathString:
strip leading slash (47) bytes.  Reading s[0] of an empty string is a Go
runtime fault, modelled as none. -/
def stripSlashes : List Nat → Option (List Nat)
  | [] => none
  | c :: rest => if c = 47 then stripSlashes rest else some (c :: rest)

/-- strings.Split(s, slash) on a byte string: split at every slash (47)
byte; the empty string yields one empty segment. -/
def splitSlash (s : List Nat) : List (List Nat) :=
  s.foldr
    (fun c r =>
      match r with
      | [] => [[]]
      | g :: gs => if c = 47 then [] :: g :: gs else (c :: g) :: gs)
    [[]]

/-- message.go RemoveOption. -/
def RemoveOption (m : Message) (opID : Nat) : Message :=
  { m with opts := optionsMinus m.opts opID }

/-- message.go AddOption in the slice-of-strings case used by SetPath: one
option entry is appended per string element. -/
def AddOptionStrings (m : Message) (opID : Nat) (vals : List (List Nat)) : Message :=
  { m with opts := m.opts ++ vals.map (fun v => { ID := opID, Value := OVal.vString v }) }

/-- message.go SetPath: SetOption(URIPath, s), i.e. RemoveOption then
AddOption, where AddOption expands the string slice.  URIPath is 11. -/
def SetPath (m : Message) (s : List (List Nat)) : Message :=
  AddOptionStrings (RemoveOption m 11) 11 s

/-- message.go SetPathString.  none models the Go index-out-of-range panic
that s[0] raises once the strip loop has consumed the whole string. -/
def SetPathString (m : Message) (s : List Nat) : Option Message :=
  match stripSlashes s with
  | none => none
  | some s2 => some (SetPath m (splitSlash s2))

/-! ### Server loop (server.go Serve) -/

/-- A listener read error as server.go Serve classifies it: the net.Error
Temporary and Timeout predicates. -/
structure NetError where
  temporary : Bool
  timeout : Bool
deriving DecidableEq

/-- What one iteration of the Serve loop does with its read outcome.
exitWithError is included so that the specified behaviour is expressible;
the loop body in server.go has no return statement, so serveStep never
produces it. -/
inductive ServeAction
  | handlePkt
  | backoffRetry
  | logAndContinue
  | exitWithError
deriving DecidableEq

/-- server.go Serve loop body: a read result of none means a datagram
arrived and is dispatched to handlePacket on a new goroutine; some e is a
read error.  Temporary or timeout errors sleep 5 ms and retry; every other
error (including reading from a closed listener) is logged when debugging is
enabled and the loop continues. -/
def serveStep (r : Option NetError) : ServeAction :=
  match r with
  | none => .handlePkt
  | some e => if e.temporary || e.timeout then .backoffRetry else .logAndContinue

/-- Canonical well-formedness of an in-memory option: the ID is registered
(16-bit range and known format), the value carrier is the one the decoder
itself produces for that format, and the value byte length lies within the
registry bounds. -/
def wfOption (o : option) : Bool :=
  decide (o.ID < 65536) &&
  decide ((toBytes o).length ≤ 65804) &&
  (match (optionDefs o.ID).vFormat, o.Value with
   | valueFormat.valueString, OVal.vString s =>
       decide ((optionDefs o.ID).minLen ≤ s.length ∧ s.length ≤ (optionDefs o.ID).maxLen)
   | valueFormat.valueOpaque, OVal.vBytes b =>
       decide ((optionDefs o.ID).minLen ≤ b.length ∧ b.length ≤ (optionDefs o.ID).maxLen)
   | valueFormat.valueEmpty, OVal.vBytes b =>
       decide (b = [] ∧ (optionDefs o.ID).minLen = 0)
   | valueFormat.valueUint, OVal.vMedia v =>
       decide ((o.ID = 12 ∨ o.ID = 17) ∧ v < 65536 ∧
         (optionDefs o.ID).minLen ≤ (encodeInt v).length ∧
         (encodeInt v).length ≤ (optionDefs o.ID).maxLen)
   | valueFormat.valueUint, OVal.vUint32 v =>
       decide (¬(o.ID = 12 ∨ o.ID = 17) ∧ v < 4294967296 ∧
         (optionDefs o.ID).minLen ≤ (encodeInt v).length ∧
         (encodeInt v).length ≤ (optionDefs o.ID).maxLen)
   | _, _ => false)

/-- Well-formed in-memory message: the type fits its 2-bit field, the code
one byte, the message ID two bytes, the token at most 8 bytes, and every
option is canonical. -/
def wfMessage (m : Message) : Prop :=
  m.Typ ≤ 3 ∧ m.Code < 256 ∧ m.MessageID < 65536 ∧ m.Token.length ≤ 8 ∧
  ∀ o ∈ m.opts, wfOption o = true

instance (m : Message) : Decidable (wfMessage m) :=
  inferInstanceAs (Decidable (m.Typ ≤ 3 ∧ m.Code < 256 ∧ m.MessageID < 65536 ∧
    m.Token.length ≤ 8 ∧ ∀ o ∈ m.opts, wfOption o = true))

/-- Scenario S1 of the spec: a Confirmable GET with message ID 0x1234, empty
token, UriPath options .well-known then core (as ASCII bytes), no payload. -/
def s1msg : Message :=
  { Typ := 0, Code := 1, MessageID := 4660, Token := [], Payload := [],
    opts := [⟨11, OVal.vString [46, 119, 101, 108, 108, 45, 107, 110, 111, 119, 110]⟩,
             ⟨11, OVal.vString [99, 111, 114, 101]⟩] }

/-- Scenario S2 of the spec: an Acknowledgement with code Content (69),
message ID 1, token 0xAB, ContentFormat 50 (application/json) and payload
consisting of the two bytes of the left and right curly bracket. -/
def s2msg : Message :=
  { Typ := 2, Code := 69, MessageID := 1, Token := [171], Payload := [123, 125],
    opts := [⟨12, OVal.vMedia 50⟩] }

/-! ### Lemmas about the integer codec -/

lemma decodeInt_nil : decodeInt [] = 0 := rfl

lemma decodeInt_one (a : Nat) : decodeInt [a] = a := by
  simp [decodeInt, List.foldl]

lemma decodeInt_two (a b : Nat) : decodeInt [a, b] = a * 256 + b := by
  simp [decodeInt, List.foldl]

lemma decodeInt_three (a b c : Nat) : decodeInt [a, b, c] = (a * 256 + b) * 256 + c := by
  simp [decodeInt, List.foldl]

lemma decodeInt_four (a b c d : Nat) :
    decodeInt [a, b, c, d] = ((a * 256 + b) * 256 + c) * 256 + d := by
  simp [decodeInt, List.foldl]

lemma decodeInt_encodeInt (v : Nat) (hv : v < 4294967296) :
    decodeInt (encodeInt v) = v := by
  unfold encodeInt
  split_ifs with h0 h1 h2 h3
  · subst h0; rfl
  · rw [decodeInt_one]
  · rw [decodeInt_two]; omega
  · rw [decodeInt_three]; omega
  · rw [decodeInt_four]; omega

lemma encodeInt_length (v : Nat) :
    (encodeInt v).length =
      if v = 0 then 0 else if v < 256 then 1 else if v < 65536 then 2
      else if v < 16777216 then 3 else 4 := by
  unfold encodeInt
  split_ifs <;> rfl

/-! ### Lemmas about the option header extension -/

lemma extendOpt_low (v : Nat) (h : v < 13) : extendOpt v = (v, 0) := by
  unfold extendOpt extoptByteAddend
  rw [if_neg (by omega)]

lemma extendOpt_mid (v : Nat) (h13 : 13 ≤ v) (h : v < 269) : extendOpt v = (13, v - 13) := by
  unfold extendOpt extoptByteAddend extoptWordAddend extoptByteCode
  rw [if_pos (by omega), if_neg (by omega)]

lemma extendOpt_high (v : Nat) (h : 269 ≤ v) : extendOpt v = (14, v - 269) := by
  unfold extendOpt extoptByteAddend extoptWordAddend extoptWordCode
  rw [if_pos (by omega), if_pos (by omega)]

lemma extendOpt_fst_le (v : Nat) : (extendOpt v).1 ≤ 14 := by
  by_cases h1 : v < 13
  · rw [extendOpt_low v h1]; omega
  · by_cases h2 : v < 269
    · rw [extendOpt_mid v (by omega) h2]; simp
    · rw [extendOpt_high v (by omega)]

lemma writeExt_length (c x : Nat) : (writeExt c x).length = extLen c := by
  unfold writeExt extLen
  split_ifs <;> rfl

lemma writeExt_other (c x : Nat) (h13 : c ≠ 13) (h14 : c ≠ 14) : writeExt c x = [] := by
  unfold writeExt extoptByteCode extoptWordCode
  rw [if_neg h13, if_neg h14]

lemma writeExt_13 (x : Nat) : writeExt 13 x = [x % 256] := by
  unfold writeExt extoptByteCode
  rw [if_pos rfl]

lemma writeExt_14 (x : Nat) : writeExt 14 x = [x % 65536 / 256, x % 256] := by
  unfold writeExt extoptByteCode extoptWordCode
  rw [if_neg (by omega), if_pos rfl]

lemma parseExtOpt_other (c : Nat) (b : List Nat) (h13 : c ≠ 13) (h14 : c ≠ 14) :
    parseExtOpt c b = .ok c := by
  unfold parseExtOpt extoptByteCode extoptWordCode
  rw [if_neg h13, if_neg h14]

lemma parseExtOpt_13 (x : Nat) (b : List Nat) : parseExtOpt 13 (x :: b) = .ok (x + 13) := by
  unfold parseExtOpt extoptByteCode extoptByteAddend
  rw [if_pos rfl]

lemma parseExtOpt_14 (x y : Nat) (b : List Nat) :
    parseExtOpt 14 (x :: y :: b) = .ok (x * 256 + y + 269) := by
  unfold parseExtOpt extoptByteCode extoptWordCode extoptWordAddend
  rw [if_neg (by omega), if_pos rfl]

/-- The extension bytes written by the encoder parse back to the original
value, for values within the two-byte extension range. -/
lemma parseExtOpt_writeExt (v : Nat) (hv : v ≤ 65804) (rest : List Nat) :
    parseExtOpt (extendOpt v).1 (writeExt (extendOpt v).1 (extendOpt v).2 ++ rest) =
      .ok v := by
  by_cases h1 : v < 13
  · rw [extendOpt_low v h1]
    dsimp only
    rw [writeExt_other v 0 (by omega) (by omega), List.nil_append]
    rw [parseExtOpt_other v rest (by omega) (by omega)]
  · by_cases h2 : v < 269
    · rw [extendOpt_mid v (by omega) h2]
      dsimp only
      rw [writeExt_13, Nat.mod_eq_of_lt (by omega), List.cons_append, List.nil_append,
        parseExtOpt_13]
      congr 1
      omega
    · rw [extendOpt_high v (by omega)]
      dsimp only
      rw [writeExt_14, Nat.mod_eq_of_lt (show v - 269 < 65536 by omega),
        List.cons_append, List.cons_append, List.nil_append, parseExtOpt_14]
      congr 1
      omega

/-- Parsing one encoder-emitted option header plus value: the loop consumes
exactly the emitted bytes, computes the option ID prev + delta, and proceeds
according to parseOptionValue on the value bytes. -/
lemma parseOpts_step (prev delta len : Nat) (hd : delta ≤ 65804) (hl : len ≤ 65804)
    (vb rest : List Nat) (hvb : vb.length = len) (acc : List option) :
    parseOpts (writeOptHeader delta len ++ vb ++ rest) prev acc =
      match parseOptionValue (prev + delta) vb with
      | .crash => .crash
      | .val none => parseOpts rest (prev + delta) acc
      | .val (some v) => parseOpts rest (prev + delta) (acc ++ [⟨prev + delta, v⟩]) := by
  obtain ⟨d, dx, hde⟩ : ∃ a b, extendOpt delta = (a, b) := ⟨_, _, rfl⟩
  obtain ⟨l, lx, hle⟩ : ∃ a b, extendOpt len = (a, b) := ⟨_, _, rfl⟩
  have hd14 : d ≤ 14 := by
    have := extendOpt_fst_le delta
    rw [hde] at this
    exact this
  have hl14 : l ≤ 14 := by
    have := extendOpt_fst_le len
    rw [hle] at this
    exact this
  have hwoh : writeOptHeader delta len =
      (d * 16 + l) :: (writeExt d dx ++ writeExt l lx) := by
    unfold writeOptHeader
    rw [hde, hle]
  have hpd : ∀ X, parseExtOpt d (writeExt d dx ++ X) = .ok delta := by
    intro X
    have h2 := parseExtOpt_writeExt delta hd X
    rw [hde] at h2
    exact h2
  have hpl : ∀ X, parseExtOpt l (writeExt l lx ++ X) = .ok len := by
    intro X
    have h2 := parseExtOpt_writeExt len hl X
    rw [hle] at h2
    exact h2
  have hdn : (d * 16 + l) / 16 = d := by omega
  have hln : (d * 16 + l) % 16 = l := by omega
  rw [List.append_assoc, hwoh, List.cons_append]
  rw [parseOpts]
  rw [if_neg (show ¬(d * 16 + l = 255) by omega)]
  simp only [hdn, hln]
  rw [if_neg (show ¬(d = extoptError ∨ l = extoptError) by
    unfold extoptError; omega)]
  rw [List.append_assoc, hpd]
  rw [List.drop_left' (by rw [writeExt_length]), hpl]
  rw [List.drop_left' (by rw [writeExt_length])]
  dsimp only
  rw [if_neg (show ¬((vb ++ rest).length < len) by
    simp [List.length_append, hvb])]
  rw [List.take_left' hvb, List.drop_left' hvb]

/-! ### Well-formed in-memory options and messages -/

lemma wfOption_ID_lt (o : option) (h : wfOption o = true) : o.ID < 65536 := by
  unfold wfOption at h
  simp only [Bool.and_eq_true] at h
  exact of_decide_eq_true h.1.1

lemma wfOption_toBytes_le (o : option) (h : wfOption o = true) :
    (toBytes o).length ≤ 65804 := by
  unfold wfOption at h
  simp only [Bool.and_eq_true] at h
  exact of_decide_eq_true h.1.2

/-- Decoding the bytes the encoder emits for a well-formed option yields
back exactly its value. -/
lemma parseOptionValue_toBytes (o : option) (h : wfOption o = true) :
    parseOptionValue o.ID (toBytes o) = .val (some o.Value) := by
  have hid := wfOption_ID_lt o h
  unfold wfOption at h
  simp only [Bool.and_eq_true] at h
  obtain ⟨⟨-, -⟩, hrest⟩ := h
  unfold parseOptionValue
  rw [if_neg (by omega)]
  dsimp only
  split at hrest
  · -- valueString, vString
    rename_i s hf hv
    rw [decide_eq_true_eq] at hrest
    rw [hf, if_neg (by simp)]
    have hb : toBytes o = s := by unfold toBytes; rw [hv]
    rw [hb, if_neg (by omega), hv]
  · -- valueOpaque, vBytes
    rename_i b hf hv
    rw [decide_eq_true_eq] at hrest
    rw [hf, if_neg (by simp)]
    have hb : toBytes o = b := by unfold toBytes; rw [hv]
    rw [hb, if_neg (by omega), hv]
  · -- valueEmpty, vBytes with empty payload
    rename_i b hf hv
    rw [decide_eq_true_eq] at hrest
    rw [hf, if_neg (by simp)]
    have hb : toBytes o = b := by unfold toBytes; rw [hv]
    rw [hb, if_neg (by rw [hrest.1]; simp [hrest.2]), hv]
  · -- valueUint, vMedia (ContentFormat or Accept)
    rename_i v hf hv
    rw [decide_eq_true_eq] at hrest
    obtain ⟨hor, hv16, hmin, hmaxl⟩ := hrest
    rw [hf, if_neg (by simp)]
    have hb : toBytes o = encodeInt (v % 65536) := by unfold toBytes; rw [hv]
    rw [Nat.mod_eq_of_lt hv16] at hb
    rw [hb, if_neg (by omega)]
    dsimp only
    rw [if_pos hor, decodeInt_encodeInt v (by omega), Nat.mod_eq_of_lt hv16, hv]
  · -- valueUint, vUint32
    rename_i v hf hv
    rw [decide_eq_true_eq] at hrest
    obtain ⟨hnor, hv32, hmin, hmaxl⟩ := hrest
    rw [hf, if_neg (by simp)]
    have hb : toBytes o = encodeInt (v % 4294967296) := by unfold toBytes; rw [hv]
    rw [Nat.mod_eq_of_lt hv32] at hb
    rw [hb, if_neg (by omega)]
    dsimp only
    rw [if_neg hnor, decodeInt_encodeInt v hv32, hv]
  · simp at hrest

/-- Parsing the encoder output for a sorted, well-formed option list appends
exactly those options to the accumulator and hands the remaining bytes to
the continuation. -/
lemma parseOpts_marshalOpts (l : List option) (prev : Nat) (acc : List option)
    (tail pay : List Nat)
    (hwf : ∀ o ∈ l, wfOption o = true)
    (hge : ∀ o ∈ l, prev ≤ o.ID)
    (hs : List.Sorted optLE l)
    (htail : ∀ p a, parseOpts tail p a = .done a pay) :
    parseOpts (marshalOpts l prev ++ tail) prev acc = .done (acc ++ l) pay := by
  induction l generalizing prev acc with
  | nil =>
    simp only [marshalOpts, List.nil_append, List.append_nil]
    exact htail prev acc
  | cons o rest ih =>
    have hwo : wfOption o = true := hwf o (by simp)
    have hid : o.ID < 65536 := wfOption_ID_lt o hwo
    have hlen : (toBytes o).length ≤ 65804 := wfOption_toBytes_le o hwo
    have hprev : prev ≤ o.ID := hge o (by simp)
    rw [List.sorted_cons] at hs
    rw [marshalOpts]
    rw [List.append_assoc (writeOptHeader (o.ID - prev) (toBytes o).length ++ toBytes o)]
    rw [parseOpts_step prev (o.ID - prev) (toBytes o).length (by omega) (by omega)
      (toBytes o) (marshalOpts rest o.ID ++ tail) rfl acc]
    rw [show prev + (o.ID - prev) = o.ID by omega]
    rw [parseOptionValue_toBytes o hwo]
    dsimp only
    rw [show ({ ID := o.ID, Value := o.Value } : option) = o from rfl]
    rw [show acc ++ o :: rest = (acc ++ [o]) ++ rest by simp]
    exact ih o.ID (acc ++ [o]) (fun o2 h2 => hwf o2 (List.mem_cons_of_mem o h2))
      (fun o2 h2 => hs.1 o2 h2) hs.2

lemma headerByte0_eq (t tkl : Nat) (ht : t ≤ 3) (htkl : tkl ≤ 8) :
    headerByte0 t tkl = 64 + t * 16 + tkl := by
  unfold headerByte0
  interval_cases t <;> interval_cases tkl <;> rfl

/-- Claim C1 (amended): for every well-formed message, decoding the bytes
produced by MarshalBinary yields the message with its options stably sorted
by ID; multi-valued options keep their relative insertion order because
insertionSort with optLE is stable. -/
theorem C1_roundtrip_wf (m : Message) (h : wfMessage m) :
    ParseMessage (MarshalBinary m).1 =
      DecRes.ok { m with opts := List.insertionSort optLE m.opts } := by
  obtain ⟨hT, hC, hM, hTk, hOpts⟩ := h
  have hsorted_wf : ∀ o ∈ List.insertionSort optLE m.opts, wfOption o = true := by
    intro o ho
    exact hOpts o ((List.perm_insertionSort optLE m.opts).mem_iff.mp ho)
  have hs := List.sorted_insertionSort optLE m.opts
  have hb0 : headerByte0 m.Typ m.Token.length = 64 + m.Typ * 16 + m.Token.length :=
    headerByte0_eq _ _ hT hTk
  have hPtail : ∀ p a,
      parseOpts (if m.Payload.length > 0 then 255 :: m.Payload else []) p a =
        OptsRes.done a m.Payload := by
    intro p a
    split_ifs with hp
    · rw [parseOpts, if_pos rfl]
    · have hnil : m.Payload = [] := List.length_eq_zero.mp (by omega)
      rw [hnil, parseOpts]
  show ParseMessage
      ([headerByte0 m.Typ m.Token.length, m.Code % 256,
          m.MessageID % 65536 / 256, m.MessageID % 256]
        ++ m.Token
        ++ marshalOpts (List.insertionSort optLE m.opts) 0
        ++ (if m.Payload.length > 0 then 255 :: m.Payload else [])) = _
  rw [hb0]
  simp only [List.cons_append, List.nil_append]
  rw [List.append_assoc m.Token]
  unfold ParseMessage UnmarshalBinary
  dsimp only [List.length_cons]
  have hver : ¬((64 + m.Typ * 16 + m.Token.length) / 64 ≠ 1) := by omega
  rw [if_neg hver]
  have hlen16 : (64 + m.Typ * 16 + m.Token.length) % 16 = m.Token.length := by omega
  rw [hlen16]
  rw [if_neg (show ¬(m.Token.length > 8) by omega)]
  rw [if_neg (show ¬((m.Token ++ (marshalOpts (List.insertionSort optLE m.opts) 0
      ++ (if m.Payload.length > 0 then 255 :: m.Payload else []))).length + 1 + 1 + 1 + 1
      < 4 + m.Token.length) by
    simp only [List.length_append]
    omega)]
  rw [List.drop_left]
  rw [parseOpts_marshalOpts (List.insertionSort optLE m.opts) 0 []
    (if m.Payload.length > 0 then 255 :: m.Payload else []) m.Payload
    hsorted_wf (fun o _ => Nat.zero_le o.ID) hs hPtail]
  dsimp only
  have htok : ∀ X : List Nat,
      (if m.Token.length > 0 then List.take m.Token.length (m.Token ++ X)
       else ([] : List Nat)) = m.Token := by
    intro X
    split_ifs with hp
    · exact List.take_left m.Token X
    · exact (List.length_eq_zero.mp (by omega) : m.Token = []).symm
  rw [htok]
  have hTyp : (64 + m.Typ * 16 + m.Token.length) / 16 % 4 = m.Typ := by omega
  have hCode : m.Code % 256 = m.Code := Nat.mod_eq_of_lt hC
  have hMid : m.MessageID % 65536 / 256 * 256 + m.MessageID % 256 = m.MessageID := by omega
  rw [hTyp, hCode, hMid, List.nil_append]

/-- Witness for C1_roundtrip_wf: a concrete well-formed message with two
options given out of order round-trips to its stably sorted form. -/
theorem C1_roundtrip_wf_witness :
    wfMessage { Typ := 2, Code := 69, MessageID := 1, Token := [171],
                Payload := [123, 125],
                opts := [⟨12, OVal.vMedia 50⟩, ⟨11, OVal.vString [97]⟩] } ∧
    ParseMessage (MarshalBinary { Typ := 2, Code := 69, MessageID := 1,
                                  Token := [171], Payload := [123, 125],
                                  opts := [⟨12, OVal.vMedia 50⟩,
                                           ⟨11, OVal.vString [97]⟩] }).1 =
      DecRes.ok { ({ Typ := 2, Code := 69, MessageID := 1, Token := [171],
                     Payload := [123, 125],
                     opts := [⟨12, OVal.vMedia 50⟩,
                              ⟨11, OVal.vString [97]⟩] } : Message) with
                  opts := List.insertionSort optLE
                    [⟨12, OVal.vMedia 50⟩, ⟨11, OVal.vString [97]⟩] } :=
  ⟨by decide, C1_roundtrip_wf _ (by decide)⟩

/-- Claim C1, read over every message the encoder accepts, is false: the
encoder accepts a message with a 9-byte token (MarshalBinary always returns
a nil error), yet decoding its output yields ErrInvalidTokenLen rather than
the message with sorted options. -/
theorem C1_counterexample :
    ParseMessage (MarshalBinary { Typ := 0, Code := 0, MessageID := 0,
                                  Token := [0, 0, 0, 0, 0, 0, 0, 0, 0],
                                  Payload := [], opts := [] }).1 =
      DecRes.err DecodeErr.invalidTokenLen ∧
    ParseMessage (MarshalBinary { Typ := 0, Code := 0, MessageID := 0,
                                  Token := [0, 0, 0, 0, 0, 0, 0, 0, 0],
                                  Payload := [], opts := [] }).1 ≠
      DecRes.ok (MarshalBinary { Typ := 0, Code := 0, MessageID := 0,
                                 Token := [0, 0, 0, 0, 0, 0, 0, 0, 0],
                                 Payload := [], opts := [] }).2 := by
  constructor
  · decide
  · decide

/-! ### Stability of the option sort (for claim C8) -/

lemma filter_orderedInsert (k : Nat) (x : option) (l : List option) :
    (List.orderedInsert optLE x l).filter (fun o => o.ID == k) =
      ((x :: l).filter (fun o => o.ID == k)) := by
  induction l with
  | nil => rfl
  | cons y ys ih =>
    by_cases h : optLE x y
    · rw [List.orderedInsert_of_le optLE ys h]
    · have hstep : List.orderedInsert optLE x (y :: ys) =
          y :: List.orderedInsert optLE x ys := by
        simp [List.orderedInsert, h]
      have hlt : y.ID < x.ID := by
        unfold optLE at h
        omega
      rw [hstep]
      by_cases hxk : x.ID = k <;> by_cases hyk : y.ID = k
      · exfalso; omega
      · simp [List.filter_cons, ih, hxk, hyk]
      · simp [List.filter_cons, ih, hxk, hyk]
      · simp [List.filter_cons, ih, hxk, hyk]

/-- insertionSort with optLE is stable: for every ID, the subsequence of
options carrying that ID is unchanged. -/
lemma filter_insertionSort (k : Nat) (l : List option) :
    (List.insertionSort optLE l).filter (fun o => o.ID == k) =
      l.filter (fun o => o.ID == k) := by
  induction l with
  | nil => rfl
  | cons x xs ih =>
    rw [List.insertionSort, filter_orderedInsert]
    simp only [List.filter_cons, ih]

/-- Claim C8: MarshalBinary mutates its receiver: afterwards the option
list equals the stable sort of the original by ascending ID (it is sorted,
a permutation of the original, and for every ID the relative order of the
equal-ID options is preserved), while Type, Code, MessageID, Token and
Payload are unchanged. -/
theorem C8_marshal_mutates_receiver (m : Message) :
    (MarshalBinary m).2.Typ = m.Typ ∧
    (MarshalBinary m).2.Code = m.Code ∧
    (MarshalBinary m).2.MessageID = m.MessageID ∧
    (MarshalBinary m).2.Token = m.Token ∧
    (MarshalBinary m).2.Payload = m.Payload ∧
    (MarshalBinary m).2.opts = List.insertionSort optLE m.opts ∧
    List.Sorted optLE (MarshalBinary m).2.opts ∧
    (MarshalBinary m).2.opts.Perm m.opts ∧
    ∀ k, (MarshalBinary m).2.opts.filter (fun o => o.ID == k) =
      m.opts.filter (fun o => o.ID == k) :=
  ⟨rfl, rfl, rfl, rfl, rfl, rfl, List.sorted_insertionSort optLE m.opts,
   List.perm_insertionSort optLE m.opts, fun k => filter_insertionSort k m.opts⟩

/-! ### Remaining claim theorems -/

/-- Claim C2 at its failing input: the 7-byte packet 40 01 00 00 E0 FF FF is
below the 65535-byte bound and consists of bytes, yet UnmarshalBinary
resolves its option delta to 65804 and indexes the 65536-entry optionDefs
array out of range: a runtime panic, not a message and not one of the five
decode errors. -/
theorem C2_decoder_crash :
    ParseMessage [64, 1, 0, 0, 224, 255, 255] = DecRes.crash := by
  unfold ParseMessage UnmarshalBinary
  norm_num
  rw [parseOpts]
  norm_num [parseExtOpt_14, parseExtOpt_other, extLen, extoptByteCode, extoptWordCode,
    extoptError]
  unfold parseOptionValue
  norm_num

/-- Claim C3 at its failing input: a message whose single option has ID
65805 (so the encoder sees a delta of 65805 > 65804).  MarshalBinary does
not reject it: the Go method returns a nil error unconditionally, and the
two extension bytes wrap to uint16(65805 - 269) = 0, so the delta is
silently emitted as 0x0000; re-parsing those bytes then yields an option ID
of 269, which is unknown and dropped, so the message comes back empty. -/
theorem C3_encode_overflow :
    (MarshalBinary { Typ := 0, Code := 0, MessageID := 0, Token := [],
                     Payload := [], opts := [⟨65805, OVal.vBytes []⟩] }).1 =
      [64, 0, 0, 0, 224, 0, 0] ∧
    ParseMessage [64, 0, 0, 0, 224, 0, 0] =
      DecRes.ok { Typ := 0, Code := 0, MessageID := 0, Token := [],
                  Payload := [], opts := [] } := by
  constructor
  · decide
  · unfold ParseMessage UnmarshalBinary
    norm_num
    rw [parseOpts]
    norm_num [parseExtOpt_14, parseExtOpt_other, extLen, extoptByteCode, extoptWordCode,
      extoptError]
    unfold parseOptionValue
    norm_num [optionDefs]
    rw [parseOpts]

/-- Claim C4 as stated is false: with an empty token the token-length nibble
is 0, so the first byte emitted for scenario S1 is 0x40, not 0x41. -/
theorem C4_counterexample :
    (MarshalBinary s1msg).1 ≠
      [65, 1, 18, 52, 187, 46, 119, 101, 108, 108, 45, 107, 110, 111, 119, 110,
       4, 99, 111, 114, 101] := by
  decide

/-- Claim C4 (amended): scenario S1 encodes to exactly the 21 bytes
40 01 12 34, option header BB, the 11 bytes of .well-known, option header
04, and the 4 bytes of core. -/
theorem C4_s1_encoding :
    (MarshalBinary s1msg).1 =
      [64, 1, 18, 52, 187, 46, 119, 101, 108, 108, 45, 107, 110, 111, 119, 110,
       4, 99, 111, 114, 101] ∧
    (MarshalBinary s1msg).1.length = 21 := by
  constructor
  · decide
  · decide

/-- Claim C5: during decoding, an option whose ID has no registry entry or
whose value length lies outside the registry bounds is silently dropped: the
loop consumes exactly the header and value bytes, records nothing, and
continues with the dropped ID as prev, so subsequent options decode
correctly. -/
theorem C5_dropped_option (prev delta : Nat) (vb rest : List Nat) (acc : List option)
    (hd : delta ≤ 65804) (hlen : vb.length ≤ 65804)
    (hid : prev + delta < 65536)
    (hdrop : (optionDefs (prev + delta)).vFormat = valueFormat.valueUnknown ∨
      (vb.length < (optionDefs (prev + delta)).minLen ∨
       vb.length > (optionDefs (prev + delta)).maxLen)) :
    parseOpts (writeOptHeader delta vb.length ++ vb ++ rest) prev acc =
      parseOpts rest (prev + delta) acc := by
  rw [parseOpts_step prev delta vb.length hd hlen vb rest rfl acc]
  have hnone : parseOptionValue (prev + delta) vb = PValue.val none := by
    unfold parseOptionValue
    rw [if_neg (by omega)]
    dsimp only
    rcases hdrop with h1 | h2
    · rw [if_pos h1]
    · by_cases hf : (optionDefs (prev + delta)).vFormat = valueFormat.valueUnknown
      · rw [if_pos hf]
      · rw [if_neg hf, if_pos h2]
  rw [hnone]

/-- Witness for C5_dropped_option: option ID 999 (absent from the registry)
with a 2-byte value is dropped and parsing continues with prev = 999. -/
theorem C5_dropped_option_witness :
    999 ≤ 65804 ∧ 0 + 999 < 65536 ∧
    parseOpts (writeOptHeader 999 2 ++ [7, 8] ++ []) 0 [] =
      parseOpts [] (0 + 999) [] :=
  ⟨by decide, by decide,
   C5_dropped_option 0 999 [7, 8] [] [] (by decide) (by decide) (by decide) (by decide)⟩

/-- Claim C6: scenario S2 (ACK, Content, MID 1, token AB, ContentFormat 50,
payload of two bytes) encodes to exactly 61 45 00 01 AB C1 32 FF 7B 7D. -/
theorem C6_s2_encoding :
    (MarshalBinary s2msg).1 = [97, 69, 0, 1, 171, 193, 50, 255, 123, 125] := by
  decide

/-- Claim C7 as stated is false at the closed-listener outcome: a read error
that is neither temporary nor a timeout makes the Serve loop log and
continue, so the loop does not exit even though the claimed condition for
exiting holds. -/
theorem C7_counterexample :
    serveStep (some ⟨false, false⟩) = ServeAction.logAndContinue ∧
    serveStep (some ⟨false, false⟩) ≠ ServeAction.exitWithError := by
  constructor
  · rfl
  · decide

/-- Claim C7 (amended): the Serve loop never exits: temporary or timeout
read errors take the 5 ms backoff-and-retry path, and every other read
error, including reading from a closed listener, is logged and the loop
continues. -/
theorem C7_serve_never_exits :
    (∀ r, serveStep r ≠ ServeAction.exitWithError) ∧
    ∀ e : NetError, serveStep (some e) =
      if e.temporary || e.timeout then ServeAction.backoffRetry
      else ServeAction.logAndContinue := by
  constructor
  · intro r
    cases r with
    | none => simp [serveStep]
    | some e =>
      simp only [serveStep]
      split_ifs <;> simp
  · intro e
    rfl

lemma stripSlashes_eq (s : List Nat) :
    stripSlashes s =
      if s.all (fun c => c == 47) then none
      else some (s.dropWhile (fun c => c == 47)) := by
  induction s with
  | nil => rfl
  | cons c rest ih =>
    by_cases hc : c = 47
    · subst hc
      rw [stripSlashes, if_pos rfl, ih]
      simp [List.all_cons, List.dropWhile_cons]
    · rw [stripSlashes, if_neg hc]
      have hall : (c :: rest).all (fun c => c == 47) = false := by
        simp [List.all_cons, hc]
      rw [hall]
      simp [List.dropWhile_cons, hc]

/-- Claim C9: SetPathString panics (modelled as none) exactly when its
argument is empty or consists only of slash bytes; otherwise it strips the
leading slashes and replaces the URIPath (11) options with one option per
slash-separated segment, leaving all other options in place. -/
theorem C9_set_path_string (m : Message) (s : List Nat) :
    SetPathString m s =
      if s.all (fun c => c == 47) then none
      else some { m with opts := optionsMinus m.opts 11 ++ (splitSlash (s.dropWhile (fun c => c == 47))).map (fun g => { ID := 11, Value := OVal.vString g }) } := by
  unfold SetPathString
  rw [stripSlashes_eq]
  split_ifs with h
  · rfl
  · rfl

/-- Claim C10: for every 32-bit value, decodeInt inverts encodeInt, and
encodeInt produces the minimal big-endian length: 0 bytes for 0, 1 below
256, 2 below 65536, 3 below 16777216, else 4. -/
theorem C10_int_codec_roundtrip (v : Nat) (hv : v < 4294967296) :
    decodeInt (encodeInt v) = v ∧
    (encodeInt v).length =
      (if v = 0 then 0 else if v < 256 then 1 else if v < 65536 then 2
       else if v < 16777216 then 3 else 4) :=
  ⟨decodeInt_encodeInt v hv, encodeInt_length v⟩

/-- Witness for C10_int_codec_roundtrip at the 4-byte value 0x12345678. -/
theorem C10_int_codec_roundtrip_witness :
    305419896 < 4294967296 ∧ decodeInt (encodeInt 305419896) = 305419896 :=
  ⟨by decide, (C10_int_codec_roundtrip 305419896 (by decide)).1⟩

end GoCoap
